import Mathlib

/-!
Shallow embedding of LuaJIT's register- and spill-slot-allocation substrate
(`src/lj_target.h`): register/hint encoding, packed register+spill values,
register-set bitmasks, the R-LSRA register-allocation cost model, and
exit-stub addressing.  Machine integers are embedded as `Nat`, with an
explicit `% 2^w` wherever the C code's fixed width can matter.
-/

namespace LJ

/-- `RID_NONE = 0x80`: the hi-bit, set for a hint or for `RID_INIT`, never for
an allocated register. -/
def RID_NONE : Nat := 0x80

/-- `RID_MASK = 0x7f`: the low seven bits carrying a register number or hint. -/
def RID_MASK : Nat := 0x7f

/-- `RID_INIT = (RID_NONE|RID_MASK)`: the uninitialized sentinel. -/
def RID_INIT : Nat := RID_NONE ||| RID_MASK

/-- `ra_noreg(r) = ((r) & RID_NONE)`; truthy (nonzero) iff no register is
allocated. -/
def ra_noreg (r : Nat) : Nat := r &&& RID_NONE

/-- `ra_hasreg(r) = (!((r) & RID_NONE))`. -/
def ra_hasreg (r : Nat) : Bool := r &&& RID_NONE == 0

/-- `ra_hashint(r) = ((r) != RID_INIT)`; the C comment says it assumes a
previous `ra_noreg` test. -/
def ra_hashint (r : Nat) : Bool := r != RID_INIT

/-- `ra_gethint(r) = ((Reg)((r) & RID_MASK))`. -/
def ra_gethint (r : Nat) : Nat := r &&& RID_MASK

/-- `ra_sethint(rr, r): rr = (uint8_t)((r)|RID_NONE)`; modelled as returning
the byte stored into `rr`. -/
def ra_sethint (r : Nat) : Nat := (r ||| RID_NONE) % 2^8

/-- `ra_samehint(r1, r2) = (ra_gethint((r1)^(r2)) == 0)`. -/
def ra_samehint (r1 r2 : Nat) : Bool := ra_gethint (r1 ^^^ r2) == 0

/-- `SPS_NONE = 0`: spill slot 0 means no spill slot has been allocated. -/
def SPS_NONE : Nat := 0

/-- `ra_hasspill(s) = ((s) != SPS_NONE)`. -/
def ra_hasspill (s : Nat) : Bool := s != SPS_NONE

/-- Complement at `uint32_t` width, for the C `~` operator. -/
def not32 (x : Nat) : Nat := 0xffffffff ^^^ x

/-- `REGSP(r, s) = ((r) + ((s) << 8))`, in 32-bit arithmetic. -/
def REGSP (r s : Nat) : Nat := (r + (s <<< 8)) % 2^32

/-- `REGSP_HINT(r) = ((r)|RID_NONE)`. -/
def REGSP_HINT (r : Nat) : Nat := r ||| RID_NONE

/-- `REGSP_INIT = REGSP(RID_INIT, 0)`. -/
def REGSP_INIT : Nat := REGSP RID_INIT 0

/-- `regsp_reg(rs) = ((rs) & 255)`. -/
def regsp_reg (rs : Nat) : Nat := rs &&& 255

/-- `regsp_spill(rs) = ((rs) >> 8)`. -/
def regsp_spill (rs : Nat) : Nat := rs >>> 8

/-- `regsp_used(rs) = (((rs) & ~REGSP(RID_MASK, 0)) != REGSP(RID_NONE, 0))`. -/
def regsp_used (rs : Nat) : Bool :=
  rs &&& not32 (REGSP RID_MASK 0) != REGSP RID_NONE 0

/-- A left shift of a 32-bit operand as performed by the header's only
supported target (x86/x64): the hardware masks the shift count to 5 bits and
the result is truncated to 32 bits.  C leaves a shift count equal to the
type width undefined, so the target behaviour is the faithful reading. -/
def shl32 (x n : Nat) : Nat := (x <<< (n % 32)) % 2^32

/-- `RID2RSET(r) = (((RegSet)1) << (r))`, a 32-bit shift. -/
def RID2RSET (r : Nat) : Nat := shl32 1 r

/-- `RSET_EMPTY = 0`. -/
def RSET_EMPTY : Nat := 0

/-- `RSET_RANGE(lo, hi) = ((RID2RSET((hi)-(lo))-1) << (lo))`, the outer shift
again at 32-bit width. -/
def RSET_RANGE (lo hi : Nat) : Nat := shl32 (RID2RSET (hi - lo) - 1) lo

/-- `rset_test(rs, r) = (((rs) >> (r)) & 1)`. -/
def rset_test (rs r : Nat) : Nat := (rs >>> r) &&& 1

/-- `rset_exclude(rs, r) = (rs & ~RID2RSET(r))`. -/
def rset_exclude (rs r : Nat) : Nat := rs &&& not32 (RID2RSET r)

/-- Modelled from the spec: `lj_fls` (find last set), declared in `lj_def.h`
which is not in `src/` — "pick the highest set bit" of a nonempty mask. -/
def lj_fls (x : Nat) : Nat := Nat.log2 x

/-- Fuel-bounded count of trailing zero bits, used to model `lj_ffs` on
32-bit masks. -/
def ffsAux : Nat → Nat → Nat
  | 0, _ => 0
  | fuel+1, x => if x % 2 = 1 then 0 else ffsAux fuel (x / 2) + 1

/-- Modelled from the spec: `lj_ffs` (find first set), declared in `lj_def.h`
which is not in `src/` — "pick the lowest set bit" of a nonempty mask. -/
def lj_ffs (x : Nat) : Nat := ffsAux 32 x

/-- `rset_picktop(rs) = ((Reg)lj_fls(rs))`. -/
def rset_picktop (rs : Nat) : Nat := lj_fls rs

/-- `rset_pickbot(rs) = ((Reg)lj_ffs(rs))`. -/
def rset_pickbot (rs : Nat) : Nat := lj_ffs rs

/-- `REGCOST_PHI_WEIGHT = 64`. -/
def REGCOST_PHI_WEIGHT : Nat := 64

/-- Modelled from the spec: `IRT_ISPHI`, the phi-class flag bit of an IR type
word (`lj_ir.h` is not in `src/`); a single power-of-two flag bit, `0x40`. -/
def IRT_ISPHI : Nat := 0x40

/-- `REGCOST(cost, ref) = ((RegCost)(ref) + ((RegCost)(cost) << 16))`, in
32-bit arithmetic. -/
def REGCOST (cost ref : Nat) : Nat := (ref + (cost <<< 16)) % 2^32

/-- `regcost_ref(rc) = ((IRRef1)(rc))`: truncation to the 16-bit `IRRef1`
(the header notes it assumes a 16-bit `IRRef1`). -/
def regcost_ref (rc : Nat) : Nat := rc % 2^16

/-- `REGCOST_T(t) = ((RegCost)((t)&IRT_ISPHI) *
(((RegCost)(REGCOST_PHI_WEIGHT)<<16)/IRT_ISPHI))`. -/
def REGCOST_T (t : Nat) : Nat :=
  ((t &&& IRT_ISPHI) * ((REGCOST_PHI_WEIGHT <<< 16) / IRT_ISPHI)) % 2^32

/-- `REGCOST_REF_T(ref, t) = (REGCOST((ref), (ref)) + REGCOST_T((t)))`. -/
def REGCOST_REF_T (ref t : Nat) : Nat := (REGCOST ref ref + REGCOST_T t) % 2^32

/-- The spec's `weight`: `REGCOST_PHI_WEIGHT` when the phi bit is set in the
type word, else 0. -/
def phiWeight (t : Nat) : Nat :=
  if t &&& IRT_ISPHI = 0 then 0 else REGCOST_PHI_WEIGHT

/-- Modelled from the spec: `EXITSTUBS_PER_GROUP` (target-specific header not
in `src/`) — "16 stubs per group". -/
def EXITSTUBS_PER_GROUP : Nat := 16

/-- Modelled from the spec: `EXITSTUB_SPACING` (target-specific header not in
`src/`) — "32-byte spacing". -/
def EXITSTUB_SPACING : Nat := 32

/-- The slice of `jit_State` read by `exitstub_addr`: the table of per-group
exit-stub base addresses (`NULL` modelled as address 0). -/
structure jit_State where
  exitstubgroup : Nat → Nat

/-- `exitstub_addr(J, exitno)` returns
`(char *)J->exitstubgroup[exitno / EXITSTUBS_PER_GROUP] +
EXITSTUB_SPACING*(exitno % EXITSTUBS_PER_GROUP)` (addresses as `Nat`). -/
def exitstub_addr (J : jit_State) (exitno : Nat) : Nat :=
  J.exitstubgroup (exitno / EXITSTUBS_PER_GROUP) +
    EXITSTUB_SPACING * (exitno % EXITSTUBS_PER_GROUP)

/-- C9: for every register id `r`, exactly one of "unallocated" (`ra_noreg`
truthy, i.e. nonzero) and "allocated" (`ra_hasreg`) holds. -/
theorem ra_noreg_hasreg_exclusive (r : Nat) :
    Xor' (ra_noreg r ≠ 0) (ra_hasreg r = true) := by
  unfold ra_noreg ra_hasreg
  by_cases h : r &&& RID_NONE = 0 <;> simp [Xor', h]

/-- C5: packing register `r ≤ 255` and spill slot `s` with `REGSP` then
extracting recovers `r` and `s`, and `ra_hasspill` holds iff `s ≠ 0`. -/
theorem REGSP_roundtrip (r s : Nat) (hr : r ≤ 255) (hs : s < 2^8) :
    regsp_reg (REGSP r s) = r ∧ regsp_spill (REGSP r s) = s ∧
      (ra_hasspill (regsp_spill (REGSP r s)) = true ↔ s ≠ 0) := by
  have hsl : s <<< 8 = s * 256 := by
    rw [Nat.shiftLeft_eq]
  have h1 : REGSP r s = r + s * 256 := by
    unfold REGSP
    rw [hsl]
    apply Nat.mod_eq_of_lt
    omega
  have h2 : regsp_spill (REGSP r s) = s := by
    unfold regsp_spill
    rw [h1, Nat.shiftRight_eq_div_pow]
    omega
  refine ⟨?_, h2, ?_⟩
  · unfold regsp_reg
    rw [h1]
    have h255 : (255 : Nat) = 2^8 - 1 := by norm_num
    rw [h255, Nat.and_pow_two_sub_one_eq_mod]
    omega
  · rw [h2]
    unfold ra_hasspill SPS_NONE
    simp

/-- C5 witness: packing `(register 3, slot 0)` unpacks to register 3, slot 0,
with no spill slot. -/
theorem REGSP_roundtrip_witness :
    (3 ≤ 255 ∧ 0 < 2^8) ∧
      (regsp_reg (REGSP 3 0) = 3 ∧ regsp_spill (REGSP 3 0) = 0 ∧
        (ra_hasspill (regsp_spill (REGSP 3 0)) = true ↔ (0 : Nat) ≠ 0)) :=
  ⟨by decide, REGSP_roundtrip 3 0 (by decide) (by decide)⟩

/-- C2: the low 16 bits of a constructed register cost always equal the
occupying value's reference exactly, whatever the type word. -/
theorem regcost_ref_exact (ref t : Nat) (h : ref < 2^16) :
    regcost_ref (REGCOST_REF_T ref t) = ref := by
  have hw : t &&& IRT_ISPHI ≤ 64 := Nat.and_le_right
  unfold regcost_ref REGCOST_REF_T REGCOST REGCOST_T REGCOST_PHI_WEIGHT
    IRT_ISPHI at *
  rw [Nat.shiftLeft_eq, Nat.shiftLeft_eq]
  generalize hk : t &&& 64 = k at hw ⊢
  norm_num
  omega

/-- C2 witness at reference 10 with a non-phi type word. -/
theorem regcost_ref_exact_witness :
    10 < 2^16 ∧ regcost_ref (REGCOST_REF_T 10 0) = 10 :=
  ⟨by decide, regcost_ref_exact 10 0 (by decide)⟩

/-- C3: `exitstub_addr` returns the group base plus spacing times the
within-group index; exit 20 is group 1 at byte offset 128, exit 15 is group 0
at byte offset 480. -/
theorem exitstub_addr_spec (J : jit_State) (e : Nat)
    (h : J.exitstubgroup (e / EXITSTUBS_PER_GROUP) ≠ 0) :
    exitstub_addr J e =
      J.exitstubgroup (e / EXITSTUBS_PER_GROUP) +
        EXITSTUB_SPACING * (e % EXITSTUBS_PER_GROUP) ∧
      (20 / EXITSTUBS_PER_GROUP = 1 ∧
        EXITSTUB_SPACING * (20 % EXITSTUBS_PER_GROUP) = 128) ∧
      (15 / EXITSTUBS_PER_GROUP = 0 ∧
        EXITSTUB_SPACING * (15 % EXITSTUBS_PER_GROUP) = 480) :=
  ⟨rfl, by decide, by decide⟩

/-- C3 witness on a concrete generated-group table and exit 20. -/
theorem exitstub_addr_spec_witness :
    (jit_State.mk fun g => 4096 * (g + 1)).exitstubgroup
        (20 / EXITSTUBS_PER_GROUP) ≠ 0 ∧
      (exitstub_addr (jit_State.mk fun g => 4096 * (g + 1)) 20 =
        (jit_State.mk fun g => 4096 * (g + 1)).exitstubgroup
            (20 / EXITSTUBS_PER_GROUP) +
          EXITSTUB_SPACING * (20 % EXITSTUBS_PER_GROUP) ∧
        (20 / EXITSTUBS_PER_GROUP = 1 ∧
          EXITSTUB_SPACING * (20 % EXITSTUBS_PER_GROUP) = 128) ∧
        (15 / EXITSTUBS_PER_GROUP = 0 ∧
          EXITSTUB_SPACING * (15 % EXITSTUBS_PER_GROUP) = 480)) :=
  ⟨by decide, exitstub_addr_spec (jit_State.mk fun g => 4096 * (g + 1)) 20
    (by decide)⟩

/-- The phi-bit mask extracted from a type word is either zero or the whole
bit. -/
lemma and_isphi_cases (t : Nat) :
    t &&& IRT_ISPHI = 0 ∨ t &&& IRT_ISPHI = IRT_ISPHI := by
  have h64 : IRT_ISPHI = 2^6 := by decide
  rw [h64, Nat.and_two_pow]
  cases t.testBit 6 <;> simp

/-- Closed form of `REGCOST_T`: the phi weight shifted into the upper half. -/
lemma REGCOST_T_eq (t : Nat) : REGCOST_T t = phiWeight t * 2^16 := by
  unfold REGCOST_T phiWeight
  rcases and_isphi_cases t with h | h <;> rw [h] <;> decide

/-- Closed form of `REGCOST_REF_T` when the sort key cannot wrap at 32
bits. -/
lemma REGCOST_REF_T_eq (ref t : Nat) (h : ref + phiWeight t < 2^16) :
    REGCOST_REF_T ref t = ref + (ref + phiWeight t) * 2^16 := by
  unfold REGCOST_REF_T REGCOST
  rw [REGCOST_T_eq, Nat.shiftLeft_eq]
  generalize phiWeight t = w at h ⊢
  omega

/-- C1 (amended): provided each `ref + weight` stays below `2^16` (so the
shifted sort key cannot wrap in 32-bit arithmetic), comparing the two
`REGCOST_REF_T` values as unsigned integers orders them by `ref + weight`,
tie-broken by `ref` in the low half. -/
theorem regcost_compare (ref1 t1 ref2 t2 : Nat)
    (h1 : ref1 + phiWeight t1 < 2^16) (h2 : ref2 + phiWeight t2 < 2^16) :
    REGCOST_REF_T ref1 t1 < REGCOST_REF_T ref2 t2 ↔
      (ref1 + phiWeight t1 < ref2 + phiWeight t2 ∨
        (ref1 + phiWeight t1 = ref2 + phiWeight t2 ∧ ref1 < ref2)) := by
  rw [REGCOST_REF_T_eq ref1 t1 h1, REGCOST_REF_T_eq ref2 t2 h2]
  generalize phiWeight t1 = w1 at h1 ⊢
  generalize phiWeight t2 = w2 at h2 ⊢
  omega

/-- C1 counterexample: at the top of the 16-bit reference range the claim
fails as stated — the cost of the phi value with reference 65535 wraps in 32
bits and compares strictly below the cost of the non-phi value with reference
65534, although its `ref + weight` is the larger one. -/
theorem regcost_compare_counterexample :
    REGCOST_REF_T 65535 IRT_ISPHI < REGCOST_REF_T 65534 0 ∧
      65534 + phiWeight 0 < 65535 + phiWeight IRT_ISPHI := by decide

/-- C1 witness: the spec's example, reference 10 non-phi versus reference 5
phi — the non-phi cost is the minimum since `10 < 5 + 64`. -/
theorem regcost_compare_witness :
    (10 + phiWeight 0 < 2^16 ∧ 5 + phiWeight IRT_ISPHI < 2^16) ∧
      (REGCOST_REF_T 10 0 < REGCOST_REF_T 5 IRT_ISPHI ↔
        (10 + phiWeight 0 < 5 + phiWeight IRT_ISPHI ∨
          (10 + phiWeight 0 = 5 + phiWeight IRT_ISPHI ∧ 10 < 5))) :=
  ⟨by decide, regcost_compare 10 0 5 IRT_ISPHI (by decide) (by decide)⟩

/-- Masking a 32-bit value with `0xffffff80` clears exactly its low seven
bits. -/
lemma land_high7 (rs : Nat) (h : rs < 2^32) :
    rs &&& 0xffffff80 = 2^7 * (rs / 2^7) := by
  have hmask : (0xffffff80 : Nat) = (2^25 - 1) <<< 7 := by decide
  have hrhs : 2^7 * (rs / 2^7) = (rs >>> 7) <<< 7 := by
    rw [Nat.shiftRight_eq_div_pow, Nat.shiftLeft_eq, Nat.mul_comm]
  rw [hmask, hrhs]
  apply Nat.eq_of_testBit_eq
  intro j
  rw [Nat.testBit_and, Nat.testBit_shiftLeft, Nat.testBit_shiftLeft,
    Nat.testBit_shiftRight, Nat.testBit_two_pow_sub_one]
  by_cases h7 : 7 ≤ j
  · by_cases h32 : j < 32
    · have e1 : 7 + (j - 7) = j := by omega
      have e2 : j - 7 < 25 := by omega
      simp [ge_iff_le, h7, e1, e2]
    · have e1 : 7 + (j - 7) = j := by omega
      have e2 : ¬ (j - 7 < 25) := by omega
      have e3 : rs.testBit j = false :=
        Nat.testBit_lt_two_pow (lt_of_lt_of_le h
          (Nat.pow_le_pow_right (by norm_num) (by omega)))
      rw [e1]
      simp [ge_iff_le, h7, e2, e3]
  · simp [ge_iff_le, h7]

/-- C4: `regsp_used` is false exactly when clearing the low seven
register-number bits of the packed value leaves the NONE-bit-with-slot-0
pattern; in particular `REGSP_INIT` reports unused. -/
theorem regsp_used_iff (rs : Nat) (h : rs < 2^32) :
    (regsp_used rs = false ↔ 2^7 * (rs / 2^7) = REGSP RID_NONE 0) ∧
      regsp_used REGSP_INIT = false := by
  refine ⟨?_, by decide⟩
  unfold regsp_used
  have hm : not32 (REGSP RID_MASK 0) = 0xffffff80 := by decide
  rw [hm, land_high7 rs h]
  have hn : REGSP RID_NONE 0 = 128 := by decide
  rw [hn]
  simp

/-- C4 witness at the uninitialized packed value `REGSP_INIT = 0xff`. -/
theorem regsp_used_iff_witness :
    255 < 2^32 ∧
      ((regsp_used 255 = false ↔ 2^7 * (255 / 2^7) = REGSP RID_NONE 0) ∧
        regsp_used REGSP_INIT = false) :=
  ⟨by decide, regsp_used_iff 255 (by decide)⟩

/-- C6: storing a hint with `ra_sethint` then reading it with `ra_gethint`
returns the low seven bits of `r` unchanged, and the stored byte tests as
unallocated. -/
theorem ra_sethint_gethint (r : Nat) :
    ra_gethint (ra_sethint r) = r &&& RID_MASK ∧
      ra_noreg (ra_sethint r) ≠ 0 := by
  have e127 : RID_MASK = 2^7 - 1 := by decide
  have e128 : RID_NONE = 2^7 := by decide
  constructor
  · unfold ra_gethint ra_sethint
    rw [e127, e128]
    apply Nat.eq_of_testBit_eq
    intro j
    rw [Nat.testBit_and, Nat.testBit_mod_two_pow, Nat.testBit_or,
      Nat.testBit_two_pow, Nat.testBit_and, Nat.testBit_two_pow_sub_one]
    by_cases hj : j < 7
    · have hj8 : j < 8 := by omega
      have hj7 : 7 ≠ j := by omega
      simp [hj, hj8, hj7]
    · simp [hj]
  · unfold ra_noreg ra_sethint
    rw [e128]
    have hb : ((r ||| 2^7) % 2^8).testBit 7 = true := by
      rw [Nat.testBit_mod_two_pow, Nat.testBit_or, Nat.testBit_two_pow]
      simp
    rw [Nat.and_two_pow, hb]
    decide

/-- C10: when the low seven bits of `r` are all ones, `ra_sethint` stores
exactly the `RID_INIT` sentinel, so `ra_hashint` on the result is false even
though `ra_gethint` still reads back 127. -/
theorem ra_sethint_collapse (r : Nat) (h : r &&& RID_MASK = RID_MASK) :
    ra_sethint r = RID_INIT ∧ ra_hashint (ra_sethint r) = false ∧
      ra_gethint (ra_sethint r) = 127 := by
  have e127 : RID_MASK = 2^7 - 1 := by decide
  rw [e127, Nat.and_pow_two_sub_one_eq_mod] at h
  have hb : ∀ j, j < 7 → r.testBit j = true := by
    intro j hj
    interval_cases j <;>
      (rw [Nat.testBit_to_div_mod]; simp only [decide_eq_true_eq]; omega)
  have h1 : ra_sethint r = RID_INIT := by
    unfold ra_sethint
    have e255 : RID_INIT = 2^8 - 1 := by decide
    have e128 : RID_NONE = 2^7 := by decide
    rw [e255, e128]
    apply Nat.eq_of_testBit_eq
    intro j
    rw [Nat.testBit_mod_two_pow, Nat.testBit_or, Nat.testBit_two_pow,
      Nat.testBit_two_pow_sub_one]
    by_cases hj8 : j < 8
    · by_cases hj7 : j < 7
      · simp [hj8, hb j hj7]
      · have hjeq : j = 7 := by omega
        subst hjeq
        simp
    · simp [hj8]
  refine ⟨h1, ?_, ?_⟩
  · rw [h1]; decide
  · rw [h1]; decide

/-- C10 witness at the hint value 127 itself. -/
theorem ra_sethint_collapse_witness :
    (127 &&& RID_MASK = RID_MASK) ∧
      (ra_sethint 127 = RID_INIT ∧ ra_hashint (ra_sethint 127) = false ∧
        ra_gethint (ra_sethint 127) = 127) :=
  ⟨by decide, ra_sethint_collapse 127 (by decide)⟩

/-- C7 counterexample: at `lo = 0`, `hi = 32` — inside the claim's stated
domain — the shift count reaches the register width, the target masks it to
0, and `RSET_RANGE 0 32` is the empty mask: bit 0 should lie in `[0, 32)` but
tests 0. -/
theorem RSET_RANGE_test_counterexample :
    (0 ≤ 32 ∧ 32 ≤ 32 ∧ 0 < 32) ∧
      ¬(rset_test (RSET_RANGE 0 32) 0 = 1 ↔ (0 ≤ 0 ∧ 0 < 32)) := by decide

/-- C7 (amended): for `lo ≤ hi ≤ 32` with `hi - lo < 32` (the full-width
range would shift by the register width, which the 32-bit target masks to a
zero count) and `r < 32`, membership in `RSET_RANGE lo hi` is exactly
`lo ≤ r < hi`. -/
theorem RSET_RANGE_test (lo hi r : Nat) (hlh : lo ≤ hi) (hhi : hi ≤ 32)
    (hw : hi - lo < 32) (hr : r < 32) :
    rset_test (RSET_RANGE lo hi) r = 1 ↔ (lo ≤ r ∧ r < hi) := by
  by_cases hlo : lo < 32
  · have hrange : RSET_RANGE lo hi = (2^(hi - lo) - 1) <<< lo := by
      unfold RSET_RANGE RID2RSET shl32
      rw [Nat.mod_eq_of_lt hw, Nat.mod_eq_of_lt hlo, Nat.one_shiftLeft]
      have hin : (2:Nat)^(hi - lo) < 2^32 :=
        lt_of_le_of_lt (Nat.pow_le_pow_right (by norm_num) (by omega))
          (by norm_num : (2:Nat)^31 < 2^32)
      rw [Nat.mod_eq_of_lt hin]
      apply Nat.mod_eq_of_lt
      rw [Nat.shiftLeft_eq]
      have hp : 0 < (2:Nat)^lo := pow_pos (by norm_num) lo
      have hq : 0 < (2:Nat)^(hi - lo) := pow_pos (by norm_num) (hi - lo)
      have h2 : (2^(hi - lo) - 1) * 2^lo < 2^(hi - lo) * 2^lo := by
        apply Nat.mul_lt_mul_of_lt_of_le (by omega) (le_refl _) hp
      have h3 : (2:Nat)^(hi - lo) * 2^lo = 2^hi := by
        rw [← pow_add]
        congr 1
        omega
      have h4 : (2:Nat)^hi ≤ 2^32 := Nat.pow_le_pow_right (by norm_num) hhi
      omega
    rw [hrange]
    unfold rset_test
    rw [Nat.and_one_is_mod, Nat.shiftRight_eq_div_pow]
    constructor
    · intro hbit
      have hb : ((2^(hi-lo) - 1) <<< lo).testBit r = true := by
        rw [Nat.testBit_to_div_mod]
        exact decide_eq_true hbit
      rw [Nat.testBit_shiftLeft, Nat.testBit_two_pow_sub_one] at hb
      simp only [Bool.and_eq_true, decide_eq_true_eq, ge_iff_le] at hb
      omega
    · intro hin
      have hb : ((2^(hi-lo) - 1) <<< lo).testBit r = true := by
        rw [Nat.testBit_shiftLeft, Nat.testBit_two_pow_sub_one]
        simp only [Bool.and_eq_true, decide_eq_true_eq, ge_iff_le]
        omega
      rw [Nat.testBit_to_div_mod] at hb
      exact of_decide_eq_true hb
  · have hlo32 : lo = 32 := by omega
    have hhi32 : hi = 32 := by omega
    subst hlo32
    subst hhi32
    have h0 : RSET_RANGE 32 32 = 0 := by decide
    rw [h0]
    unfold rset_test
    rw [Nat.zero_shiftRight]
    simp only [Nat.zero_and]
    omega

/-- C7 witness: bit 2 lies in the range `[1, 3)`. -/
theorem RSET_RANGE_test_witness :
    (1 ≤ 3 ∧ 3 ≤ 32 ∧ 3 - 1 < 32 ∧ 2 < 32) ∧
      (rset_test (RSET_RANGE 1 3) 2 = 1 ↔ (1 ≤ 2 ∧ 2 < 3)) :=
  ⟨by decide,
    RSET_RANGE_test 1 3 2 (by decide) (by decide) (by decide) (by decide)⟩

/-- `rset_test` agrees with `Nat.testBit`. -/
lemma rset_test_eq_one_iff (rs j : Nat) :
    rset_test rs j = 1 ↔ rs.testBit j = true := by
  unfold rset_test
  rw [Nat.and_one_is_mod, Nat.shiftRight_eq_div_pow, Nat.testBit_to_div_mod]
  simp

/-- `Nat.log2` of a nonzero number is the index of its highest set bit. -/
lemma log2_is_top (x : Nat) (hx : x ≠ 0) :
    x.testBit (Nat.log2 x) = true ∧
      ∀ j, x.testBit j = true → j ≤ Nat.log2 x := by
  constructor
  · rw [Nat.testBit_to_div_mod]
    have hlo : 2 ^ Nat.log2 x ≤ x := Nat.log2_self_le hx
    have hhi : x < 2 ^ (Nat.log2 x + 1) := Nat.lt_log2_self
    have hdiv : x / 2 ^ Nat.log2 x = 1 := by
      apply Nat.div_eq_of_lt_le
      · simpa using hlo
      · rw [pow_succ] at hhi
        omega
    rw [hdiv]
    decide
  · intro j hj
    by_contra hlt
    push_neg at hlt
    have hxj : x < 2 ^ j :=
      lt_of_lt_of_le Nat.lt_log2_self
        (Nat.pow_le_pow_right (by norm_num) (by omega))
    have hfalse := Nat.testBit_lt_two_pow hxj
    rw [hj] at hfalse
    exact Bool.noConfusion hfalse

/-- `ffsAux` with enough fuel finds the index of the lowest set bit. -/
lemma ffsAux_is_bot : ∀ fuel x, 0 < x → x < 2^fuel →
    x.testBit (ffsAux fuel x) = true ∧
      ∀ j, x.testBit j = true → ffsAux fuel x ≤ j := by
  intro fuel
  induction fuel with
  | zero =>
    intro x hx hlt
    simp at hlt
    omega
  | succ n ih =>
    intro x hx hlt
    by_cases hpar : x % 2 = 1
    · constructor
      · simp only [ffsAux, if_pos hpar]
        rw [Nat.testBit_to_div_mod]
        simpa using hpar
      · intro j _
        simp only [ffsAux, if_pos hpar]
        exact Nat.zero_le j
    · have hx2 : 0 < x / 2 := by omega
      have hlt2 : x / 2 < 2^n := by
        rw [pow_succ] at hlt
        omega
      obtain ⟨ih1, ih2⟩ := ih (x / 2) hx2 hlt2
      constructor
      · simp only [ffsAux, if_neg hpar]
        have hstep := Nat.testBit_succ x (ffsAux n (x / 2))
        rw [Nat.succ_eq_add_one] at hstep
        rw [hstep]
        exact ih1
      · intro j hj
        simp only [ffsAux, if_neg hpar]
        cases j with
        | zero =>
          rw [Nat.testBit_to_div_mod] at hj
          simp at hj
          omega
        | succ k =>
          have hstep := Nat.testBit_succ x k
          rw [Nat.succ_eq_add_one] at hstep
          rw [hstep] at hj
          exact Nat.succ_le_succ (ih2 k hj)

/-- C8: on a nonempty 32-bit mask, `rset_picktop` returns the index of the
highest set bit and `rset_pickbot` the index of the lowest set bit, as pure
functions of the mask. -/
theorem rset_pick_spec (rs : Nat) (h32 : rs < 2^32) (hne : rs ≠ 0) :
    (rset_test rs (rset_picktop rs) = 1 ∧
      ∀ j, rset_test rs j = 1 → j ≤ rset_picktop rs) ∧
      (rset_test rs (rset_pickbot rs) = 1 ∧
        ∀ j, rset_test rs j = 1 → rset_pickbot rs ≤ j) := by
  obtain ⟨ht1, ht2⟩ := log2_is_top rs hne
  obtain ⟨hb1, hb2⟩ := ffsAux_is_bot 32 rs (Nat.pos_of_ne_zero hne) h32
  refine ⟨⟨?_, ?_⟩, ?_, ?_⟩
  · rw [rset_test_eq_one_iff]
    exact ht1
  · intro j hj
    exact ht2 j ((rset_test_eq_one_iff rs j).mp hj)
  · rw [rset_test_eq_one_iff]
    exact hb1
  · intro j hj
    exact hb2 j ((rset_test_eq_one_iff rs j).mp hj)

/-- C8 witness: on the mask with exactly bits 2, 5 and 9 set (548), the picks
are 9 and 2. -/
theorem rset_pick_spec_witness :
    (548 < 2^32 ∧ (548 : Nat) ≠ 0) ∧
      rset_picktop 548 = 9 ∧ rset_pickbot 548 = 2 ∧
      ((rset_test 548 (rset_picktop 548) = 1 ∧
          ∀ j, rset_test 548 j = 1 → j ≤ rset_picktop 548) ∧
        (rset_test 548 (rset_pickbot 548) = 1 ∧
          ∀ j, rset_test 548 j = 1 → rset_pickbot 548 ≤ j)) :=
  ⟨⟨by decide, by decide⟩,
    by
      unfold rset_picktop lj_fls
      have h1 : 9 ≤ Nat.log2 548 := (Nat.le_log2 (by norm_num)).2 (by norm_num)
      have h2 : Nat.log2 548 < 10 := (Nat.log2_lt (by norm_num)).2 (by norm_num)
      omega,
    by decide,
    rset_pick_spec 548 (by decide) (by decide)⟩

end LJ
